/-
Formal model of the Digital E-Gram Panchayat portal's core modules:
the buffered event logger (logger-module.js), the log statistics facade,
the domain validators and the application status-transition workflow
(applications.js, services.js).  Each definition is a direct translation
of the corresponding JavaScript function; theorems at the end of the file
settle the specification's testable properties against these definitions.

Modelling conventions:
* JavaScript values handled by the sanitizer are modelled by the `JsValue`
  inductive (null, booleans, numbers, strings, arrays, plain objects with
  insertion-ordered fields).
* Firestore writes are modelled by returning the document(s) that the code
  writes; a write that the code performs inside a `try { } catch` whose
  failure is swallowed is modelled by a Boolean outcome parameter.
* JS falsiness of the string-typed inputs of the validators is modelled by
  the empty string (both `undefined` and `""` are falsy there).
* Character classes of the JS regexes are modelled on their ASCII core:
  `\s` by `Char.isWhitespace`, `\d` / `\D` by `Char.isDigit`.
-/
import Mathlib

namespace GramPanchayat

/-! ## JavaScript-like values (for the sanitizer and log payloads) -/

inductive JsValue where
  | null : JsValue
  | bool : Bool → JsValue
  | num : Int → JsValue
  | str : String → JsValue
  | arr : List JsValue → JsValue
  | obj : List (String × JsValue) → JsValue
deriving Repr

/-- JS truthiness test for `!data`: null, `false`, `0` and `""` are falsy. -/
def jsFalsy : JsValue → Bool
  | .null => true
  | .bool b => !b
  | .num n => n == 0
  | .str s => s == ""
  | _ => false

/-- `typeof data === 'object'` (true for null as well, but the falsy check
runs first in `sanitizeData`, so the null case never reaches this test). -/
def isObjectTyped : JsValue → Bool
  | .null => true
  | .arr _ => true
  | .obj _ => true
  | _ => false

/-- A scalar (non-container) value. -/
def isScalar : JsValue → Bool
  | .arr _ => false
  | .obj _ => false
  | _ => true

/-- The denylist of `Logger.sanitizeData` (`sensitiveFields`). -/
def sensitiveFields : List String :=
  ["password", "token", "secret", "key", "auth", "credential"]

/-- ASCII model of `String.toLowerCase()`. -/
def lowerString (s : String) : String := String.mk (s.toList.map Char.toLower)

/-- `pat` occurs at the start of `l`. -/
def seqStarts : List Char → List Char → Bool
  | [], _ => true
  | _ :: _, [] => false
  | p :: ps, c :: cs => p == c && seqStarts ps cs

/-- `l.includes(pat)`: `pat` occurs contiguously somewhere in `l`. -/
def seqContains (pat : List Char) : List Char → Bool
  | [] => pat.isEmpty
  | c :: cs => seqStarts pat (c :: cs) || seqContains pat cs

/-- `sensitiveFields.some(field => key.toLowerCase().includes(field))`. -/
def containsSensitive (key : String) : Bool :=
  sensitiveFields.any fun f => seqContains f.toList (lowerString key).toList

mutual

/-- The inner `sanitizeObject` closure of `Logger.sanitizeData`: redacts the
value of every field whose lower-cased key contains a denylisted substring,
recurses into arrays and objects, and returns scalars unchanged. -/
def sanitizeObject : JsValue → JsValue
  | .arr items => .arr (sanitizeArr items)
  | .obj fields => .obj (sanitizeFields fields)
  | v => v

/-- `obj.map(item => sanitizeObject(item))` on an array. -/
def sanitizeArr : List JsValue → List JsValue
  | [] => []
  | v :: vs => sanitizeObject v :: sanitizeArr vs

/-- The `for (const [key, value] of Object.entries(obj))` loop. -/
def sanitizeFields : List (String × JsValue) → List (String × JsValue)
  | [] => []
  | (k, v) :: rest =>
    (if containsSensitive k then (k, .str "[REDACTED]") else (k, sanitizeObject v)) ::
      sanitizeFields rest

end

/-- Decimal digit character for `d < 10`. -/
def digitChar (d : Nat) : Char := Char.ofNat (48 + d)

/-- Decimal rendering of a natural number (the property keys a JS spread
assigns to array elements). -/
def natKeyAux : Nat → List Char
  | n =>
    if _hlt : n < 10 then [digitChar n]
    else natKeyAux (n / 10) ++ [digitChar (n % 10)]
decreasing_by
  exact Nat.div_lt_self (Nat.lt_of_lt_of_le (by omega) (Nat.le_of_not_lt _hlt)) (by omega)

def natKey (n : Nat) : String := String.mk (natKeyAux n)

/-- `{ ...data }`: a spread copy.  On a plain object it is a shallow copy;
on an array it produces a plain object keyed by the decimal indices (the
spread copies the array's own enumerable index properties, and the result is
no longer an array). -/
def spreadCopy : JsValue → JsValue
  | .arr items => .obj ((items.enum).map fun p => (natKey p.1, p.2))
  | v => v

/-- `Logger.sanitizeData`: returns falsy and non-object values unchanged,
otherwise spread-copies the top level and runs `sanitizeObject` on it. -/
def sanitizeData (data : JsValue) : JsValue :=
  if jsFalsy data || !(isObjectTyped data) then data
  else sanitizeObject (spreadCopy data)

/-! ## The buffered event logger (`Logger` in logger-module.js) -/

/-- A log entry as built by `Logger.log` (the browser-environment fields
`userAgent` and `url` are `null` outside a browser and are omitted). -/
structure LogEntry where
  timestamp : String
  level : String
  message : String
  data : JsValue
  sessionId : String
  id : String
deriving Repr

/-- The mutable state of a `Logger` instance, together with two counters
instrumenting its synchronous side effects: how often the console sink ran
and how often `flushLogs` was invoked. -/
structure LoggerState where
  enableConsole : Bool
  enableFirestore : Bool
  hasDb : Bool
  maxBufferSize : Nat
  logBuffer : List LogEntry
  consoleCount : Nat
  flushCalls : Nat
deriving Repr

/-- The `logEntry` object literal of `Logger.log`: the level is upper-cased
and the payload is `data ? this.sanitizeData(data) : null`. -/
def mkLogEntry (ts level message : String) (data : JsValue) (sessionId lid : String) :
    LogEntry :=
  { timestamp := ts
    level := level.toUpper
    message := message
    data := if jsFalsy data then .null else sanitizeData data
    sessionId := sessionId
    id := lid }

/-- `Logger.log`: mirrors the entry to the console when console output is
enabled, appends it to the buffer when Firestore persistence is enabled and
a database is configured, and invokes `flushLogs` once when the buffer has
reached `maxBufferSize`.  The flush itself is asynchronous; its effect on
the buffer is the separate `flushLogs` transition below. -/
def Logger.log (s : LoggerState) (ts level message : String) (data : JsValue)
    (lid : String) (sessionId : String) : LoggerState :=
  let entry := mkLogEntry ts level message data sessionId lid
  let s1 := if s.enableConsole then { s with consoleCount := s.consoleCount + 1 } else s
  if s1.enableFirestore && s1.hasDb then
    let buf := s1.logBuffer ++ [entry]
    if s1.maxBufferSize ≤ buf.length then
      { s1 with logBuffer := buf, flushCalls := s1.flushCalls + 1 }
    else
      { s1 with logBuffer := buf }
  else s1

/-- `Logger.flushLogs`, one complete attempt.  `buffer` is the buffer when
the call starts, `arrivals` are the entries appended by `record` calls that
land while `batch.commit()` is awaited, and `success` tells whether the
commit succeeded.  Returns the buffer after the attempt and the batch of
entries durably persisted by it.

The code swaps the buffer out (`logsToFlush = [...this.logBuffer];
this.logBuffer = []`) and on commit failure runs
`this.logBuffer.unshift(...this.logBuffer)`: it prepends the *current*
buffer (the arrivals) to itself, so the failed batch is dropped and the
arrivals are duplicated. -/
def flushLogs {α : Type} (hasDb : Bool) (buffer arrivals : List α) (success : Bool) :
    List α × List α :=
  if !hasDb || buffer.length == 0 then (buffer, [])
  else if success then (arrivals, buffer)
  else (arrivals ++ arrivals, [])

/-! ## Log statistics (`Logger.getLogStatistics`)

The facade fetches up to 1000 matching entries through `getLogs` (a pass-
through query to the external store, out of scope here) and aggregates the
fetched list client-side.  The aggregation below models, over that fetched
list, the fields the properties refer to: `total`, `byLevel`, `errorRate`
and `topErrors`.  The `byHour`, `byUser` and `performance` aggregates are
independent accumulators of the same loop and are not modelled. -/

/-- `m[k] = (m[k] || 0) + 1` on an insertion-ordered object: bump the count
of `k`, appending a fresh `(k, 1)` entry at the end when `k` is new. -/
def bumpCount (m : String) : List (String × Nat) → List (String × Nat)
  | [] => [(m, 1)]
  | (k, c) :: rest => if k = m then (k, c + 1) :: rest else (k, c) :: bumpCount m rest

/-- `m[k] || 0` on an insertion-ordered object. -/
def lookupCount (k : String) : List (String × Nat) → Nat
  | [] => 0
  | (k', c) :: rest => if k' = k then c else lookupCount k rest

/-- The `stats.byLevel` accumulator. -/
def byLevelCounts (logs : List LogEntry) : List (String × Nat) :=
  logs.foldl (fun acc l => bumpCount l.level acc) []

/-- The `errorMessages` accumulator: per-message counts over ERROR entries,
keys in order of first occurrence. -/
def errorCounts (logs : List LogEntry) : List (String × Nat) :=
  logs.foldl (fun acc l => if l.level = "ERROR" then bumpCount l.message acc else acc) []

/-- `Object.entries(m).sort((a, b) => b[1] - a[1])`: a stable sort by count,
descending (`Array.prototype.sort` is stable, and `Object.entries` yields
the string keys in insertion order). -/
def insertCountDesc (p : String × Nat) : List (String × Nat) → List (String × Nat)
  | [] => [p]
  | q :: qs => if q.2 ≤ p.2 then p :: q :: qs else q :: insertCountDesc p qs

def sortByCountDesc : List (String × Nat) → List (String × Nat)
  | [] => []
  | p :: ps => insertCountDesc p (sortByCountDesc ps)

/-- The statistics record (modelled fields). `errorRate` is exact division
over ℚ; the `logs.length > 0` guard mirrors the source. -/
structure LogStats where
  total : Nat
  byLevel : List (String × Nat)
  errorRate : ℚ
  topErrors : List (String × Nat)
deriving Repr

/-- `Logger.getLogStatistics`, applied to the fetched list of entries. -/
def getLogStatistics (logs : List LogEntry) : LogStats :=
  let byLevel := byLevelCounts logs
  { total := logs.length
    byLevel := byLevel
    errorRate :=
      if 0 < logs.length then (lookupCount "ERROR" byLevel : ℚ) / (logs.length : ℚ) else 0
    topErrors := (sortByCountDesc (errorCounts logs)).take 10 }

/-- The distinct messages of ERROR entries, in order of first occurrence
(used to state the tie-breaking discipline of `topErrors`). -/
def firstSeenErrorMessages (logs : List LogEntry) : List String :=
  logs.foldl
    (fun ks l =>
      if l.level = "ERROR" then (if l.message ∈ ks then ks else ks ++ [l.message]) else ks)
    []

/-! ## Service validator (`ServicesModule.validateServiceData`)

The validators read string-typed form fields; the empty string models a
field that is absent or empty (both are falsy under `!serviceData[field]`). -/

structure ServiceData where
  name : String
  description : String
  category : String
deriving Repr

def serviceFieldPairs (d : ServiceData) : List (String × String) :=
  [("name", d.name), ("description", d.description), ("category", d.category)]

/-- `required.filter(field => !serviceData[field])`. -/
def missingServiceFields (d : ServiceData) : List String :=
  ((serviceFieldPairs d).filter fun p => p.2 = "").map Prod.fst

def validCategories : List String := ["certificate", "license", "welfare", "other"]

def validateServiceData (d : ServiceData) : Except String Unit :=
  if 0 < (missingServiceFields d).length then
    .error ("Missing required fields: " ++ String.intercalate ", " (missingServiceFields d))
  else if !(validCategories.contains d.category) then
    .error "Invalid service category"
  else
    .ok ()

/-! ## Application validator (`ApplicationsModule.validateApplicationData`) -/

structure ApplicationData where
  serviceId : String
  applicantName : String
  applicantEmail : String
  applicantPhone : String
deriving Repr

def applicationFieldPairs (d : ApplicationData) : List (String × String) :=
  [("serviceId", d.serviceId), ("applicantName", d.applicantName),
   ("applicantEmail", d.applicantEmail), ("applicantPhone", d.applicantPhone)]

def missingApplicationFields (d : ApplicationData) : List String :=
  ((applicationFieldPairs d).filter fun p => p.2 = "").map Prod.fst

/-- Split a character list at every `'@'` (the semantics of
`s.split('@')` / `splitOn "@"` for a single-character separator). -/
def splitOnAt : List Char → List (List Char)
  | [] => [[]]
  | c :: cs =>
    if c = '@' then [] :: splitOnAt cs
    else
      match splitOnAt cs with
      | [] => [[c]]
      | p :: ps => (c :: p) :: ps

/-- The email test `/^[^\s@]+@[^\s@]+\.[^\s@]+$/`.  The character class
excludes `@`, so a match forces exactly one `@` (exactly two parts around
it); the string must have no whitespace, a nonempty part before the `@`,
and after the `@` some `.` with nonempty text on both sides of it (the
class allows further dots): a dot strictly inside the domain part is a dot
that is neither its first nor its last character. -/
def emailOk (s : String) : Bool :=
  match splitOnAt s.toList with
  | [lpart, dpart] =>
    (lpart.all fun c => !c.isWhitespace) &&
    (dpart.all fun c => !c.isWhitespace) &&
    !lpart.isEmpty &&
    ((dpart.drop 1).dropLast.contains '.')
  | _ => false

/-- `applicationData.applicantPhone.replace(/\D/g, '')`. -/
def phoneDigits (s : String) : List Char := s.toList.filter Char.isDigit

/-- The phone test `/^\d{10,15}$/` on the digit-stripped string. -/
def phoneOk (s : String) : Bool :=
  decide (10 ≤ (phoneDigits s).length) && decide ((phoneDigits s).length ≤ 15)

def validateApplicationData (d : ApplicationData) : Except String Unit :=
  if 0 < (missingApplicationFields d).length then
    .error ("Missing required fields: " ++
      String.intercalate ", " (missingApplicationFields d))
  else if !(emailOk d.applicantEmail) then
    .error "Invalid email format"
  else if !(phoneOk d.applicantPhone) then
    .error "Invalid phone number format"
  else
    .ok ()

/-! ## Application status transitions (`ApplicationsModule`) -/

structure StatusEntry where
  status : String
  updatedBy : String
  comments : String
deriving Repr, DecidableEq

/-- The fields of an application document that the transition path reads or
writes.  `completedAt` records whether the field has been set. -/
structure Application where
  userId : String
  serviceName : String
  status : String
  statusHistory : List StatusEntry
  completedAt : Bool
deriving Repr, DecidableEq

structure Notification where
  userId : String
  ntype : String
  title : String
  message : String
  isRead : Bool
deriving Repr, DecidableEq

/-- The `validStatuses` list of `updateApplicationStatus` (note: it does
not contain `"cancelled"`). -/
def validStatuses : List String :=
  ["pending", "under_review", "approved", "rejected", "completed"]

/-- `ApplicationsModule.updateApplicationStatus`.  `app?` is the looked-up
document (`none` when it does not exist) and `uid` the caller's
`auth.currentUser.uid`.  `notifOk` tells whether the notification write
succeeds; `createNotification` swallows its own failure, so the transition
result is the same either way and the notification document is returned
only when the write succeeded. -/
def updateApplicationStatus (app? : Option Application) (uid newStatus comments : String)
    (notifOk : Bool) : Except String (Application × Option Notification) :=
  if !(validStatuses.contains newStatus) then
    .error "Invalid status"
  else
    match app? with
    | none => .error "Application not found"
    | some app =>
      let entry : StatusEntry :=
        { status := newStatus
          updatedBy := uid
          comments := if comments = "" then "Status changed to " ++ newStatus else comments }
      let updated : Application :=
        { app with
            status := newStatus
            statusHistory := app.statusHistory ++ [entry]
            completedAt :=
              if newStatus = "approved" ∨ newStatus = "completed" then true
              else app.completedAt }
      let notif : Option Notification :=
        if notifOk then
          some
            { userId := app.userId
              ntype := "status_update"
              title := "Application Status Updated"
              message := "Your application for " ++ app.serviceName ++ " has been " ++ newStatus
              isRead := false }
        else none
      .ok (updated, notif)

/-- `ApplicationsModule.cancelApplication`: ownership check, then the
pending check, then delegation to `updateApplicationStatus` with status
`"cancelled"`. -/
def cancelApplication (app? : Option Application) (uid reason : String) (notifOk : Bool) :
    Except String (Application × Option Notification) :=
  match app? with
  | none => .error "Application not found"
  | some app =>
    if app.userId ≠ uid then .error "Unauthorized to cancel this application"
    else if app.status ≠ "pending" then .error "Application cannot be cancelled at this stage"
    else
      updateApplicationStatus (some app) uid "cancelled"
        (if reason = "" then "Cancelled by user" else reason) notifOk

/-! ## Processing time (`ApplicationsModule.parseProcessingTime`) -/

/-- The first maximal run of digit characters of `s` (what the regex
`/(\d+)/` captures), or `[]` when `s` has no digit. -/
def firstDigitRun (s : String) : List Char :=
  (s.toList.dropWhile fun c => !c.isDigit).takeWhile Char.isDigit

/-- Value of a digit run (`parseInt` on the captured group, exact). -/
def digitsVal (run : List Char) : Nat :=
  run.foldl (fun a c => a * 10 + (c.toNat - 48)) 0

/-- `parseProcessingTime`: 7 for a falsy argument (`none` models
null/undefined, `""` is the falsy string) or when no digit occurs, else the
value of the first digit run. -/
def parseProcessingTime (processingTime : Option String) : Nat :=
  match processingTime with
  | none => 7
  | some s =>
    if s = "" then 7
    else
      let run := firstDigitRun s
      if run.isEmpty then 7 else digitsVal run

/-- `calculateEstimatedDate`: the current date advanced by the parsed
day-count (`date.setDate(date.getDate() + days)`), with time measured in
whole days. -/
def calculateEstimatedDate (nowDays : Nat) (processingTime : Option String) : Nat :=
  nowDays + parseProcessingTime processingTime

/-! ## Specification-side predicates -/

/-- A value free of denylisted keys at every level (the premise of the
sanitizer's deep-equality property). -/
inductive DenyFree : JsValue → Prop where
  | null : DenyFree .null
  | bool (b : Bool) : DenyFree (.bool b)
  | num (n : Int) : DenyFree (.num n)
  | str (s : String) : DenyFree (.str s)
  | arr (items : List JsValue) (h : ∀ v, v ∈ items → DenyFree v) : DenyFree (.arr items)
  | obj (fields : List (String × JsValue))
      (hk : ∀ kv, kv ∈ fields → containsSensitive kv.1 = false)
      (hv : ∀ kv, kv ∈ fields → DenyFree kv.2) :
      DenyFree (.obj fields)

/-! ## Theorems -/

/-- C1: the spec requires that a failed flush lose no entry that was in the
buffer before the flush began and duplicate no entry that arrived during
the attempt.  The code violates both: with buffer `[1]` before a failing
flush and entry `2` arriving during it, the buffer afterwards is `[2, 2]`
(the failed batch `[1]` is discarded outright — contrary to the adjacent
comment "Put logs back in buffer for retry" — and the arrival `2` is
duplicated), nothing is persisted, and the next, successful flush submits
only `[2, 2]`, so entry `1` is never submitted again. -/
theorem flushLogs_failure_drops_batch_and_duplicates_arrivals :
    flushLogs true [1] [2] false = ([2, 2], ([] : List Nat)) ∧
    (1 : Nat) ∉ ([2, 2] : List Nat) ∧
    ([2, 2] : List Nat).count 2 = 2 ∧
    flushLogs true [2, 2] ([] : List Nat) true = ([], [2, 2]) := by
  decide

/-- C2: cancelling an existing, pending application as its owner is
specified to succeed, but the code always fails: `cancelApplication`
delegates to `updateApplicationStatus` with status `"cancelled"`, which is
missing from that function's `validStatuses` list, so the call throws
`Invalid status` even when every precondition of the claim holds (the
success-path logging after the call is unreachable). -/
theorem cancelApplication_owner_pending_rejected :
    cancelApplication
      (some
        { userId := "u1", serviceName := "Birth Certificate", status := "pending",
          statusHistory :=
            [{ status := "pending", updatedBy := "u1", comments := "Application submitted" }],
          completedAt := false })
      "u1" "" true = .error "Invalid status" := by
  rfl

/-- C3: after every successful `updateApplicationStatus`, the updated
application's `status` equals the status of the last `statusHistory` entry,
and the history is longer by exactly one — for every requested status and
every starting application. -/
theorem updateApplicationStatus_history_invariant
    (app : Application) (uid newStatus comments : String) (notifOk : Bool)
    (app' : Application) (notif : Option Notification)
    (h : updateApplicationStatus (some app) uid newStatus comments notifOk =
      .ok (app', notif)) :
    (∃ e : StatusEntry, app'.statusHistory.getLast? = some e ∧ e.status = app'.status) ∧
    app'.statusHistory.length = app.statusHistory.length + 1 := by
  unfold updateApplicationStatus at h
  split at h
  · exact absurd h (by simp)
  · simp only [Except.ok.injEq, Prod.mk.injEq] at h
    obtain ⟨h1, -⟩ := h
    subst h1
    refine
      ⟨⟨⟨newStatus, uid, if comments = "" then "Status changed to " ++ newStatus else comments⟩,
        ?_, ?_⟩, ?_⟩
    · exact List.getLast?_concat _
    · simp
    · simp

/-- Closed witness for C3. -/
theorem updateApplicationStatus_history_invariant_witness :
    (∃ e : StatusEntry,
      ({ userId := "u1", serviceName := "S", status := "approved",
         statusHistory :=
           [{ status := "pending", updatedBy := "u1", comments := "x" },
            { status := "approved", updatedBy := "staff",
              comments := "Status changed to approved" }],
         completedAt := true } : Application).statusHistory.getLast? = some e ∧
      e.status = "approved") ∧
    (2 : Nat) = 1 + 1 := by
  have h := updateApplicationStatus_history_invariant
    { userId := "u1", serviceName := "S", status := "pending",
      statusHistory := [{ status := "pending", updatedBy := "u1", comments := "x" }],
      completedAt := false }
    "staff" "approved" "" true
    { userId := "u1", serviceName := "S", status := "approved",
      statusHistory :=
        [{ status := "pending", updatedBy := "u1", comments := "x" },
         { status := "approved", updatedBy := "staff",
           comments := "Status changed to approved" }],
      completedAt := true }
    (some
      { userId := "u1", ntype := "status_update", title := "Application Status Updated",
        message := "Your application for S has been approved", isRead := false })
    (by rfl)
  exact ⟨h.1, rfl⟩

/-- C4: transitioning a pending application to `"approved"` succeeds,
appends exactly one history entry with status `"approved"`, sets
`completedAt` (which this operation sets exactly for the statuses
`"approved"` and `"completed"`), and creates a notification addressed to
the owning `userId`; when the notification write fails the transition
result is unchanged (no rollback). -/
theorem approve_pending_transition
    (app : Application) (uid comments : String) (_hp : app.status = "pending") :
    ∃ (e : StatusEntry) (n : Notification),
      e.status = "approved" ∧
      n.userId = app.userId ∧
      updateApplicationStatus (some app) uid "approved" comments true =
        .ok ({ app with
                 status := "approved"
                 statusHistory := app.statusHistory ++ [e]
                 completedAt := true }, some n) ∧
      updateApplicationStatus (some app) uid "approved" comments false =
        .ok ({ app with
                 status := "approved"
                 statusHistory := app.statusHistory ++ [e]
                 completedAt := true }, none) ∧
      (∀ newStatus : String, app.completedAt = false →
        ∀ (app'' : Application) (notif'' : Option Notification),
          updateApplicationStatus (some app) uid newStatus comments true =
            .ok (app'', notif'') →
          (app''.completedAt = true ↔ (newStatus = "approved" ∨ newStatus = "completed"))) := by
  refine
    ⟨{ status := "approved", updatedBy := uid,
       comments := if comments = "" then "Status changed to " ++ "approved" else comments },
     { userId := app.userId, ntype := "status_update",
       title := "Application Status Updated",
       message := "Your application for " ++ app.serviceName ++ " has been " ++ "approved",
       isRead := false },
     rfl, rfl, ?_, ?_, ?_⟩
  · unfold updateApplicationStatus
    norm_num [validStatuses]
  · unfold updateApplicationStatus
    norm_num [validStatuses]
  · intro newStatus hca app'' notif'' h
    unfold updateApplicationStatus at h
    split at h
    · exact absurd h (by simp)
    · simp only [Except.ok.injEq, Prod.mk.injEq] at h
      obtain ⟨h1, -⟩ := h
      subst h1
      simp only [hca]
      by_cases hs : newStatus = "approved" ∨ newStatus = "completed"
      · simp [hs]
      · simp [hs]

/-- Closed witness for C4. -/
theorem approve_pending_transition_witness :
    ∃ (e : StatusEntry) (n : Notification),
      e.status = "approved" ∧
      n.userId = "u1" ∧
      updateApplicationStatus
        (some { userId := "u1", serviceName := "S", status := "pending",
                statusHistory := [], completedAt := false })
        "staff" "approved" "" true =
        .ok ({ userId := "u1", serviceName := "S", status := "approved",
               statusHistory := [e], completedAt := true }, some n) := by
  obtain ⟨e, n, he, hn, hok, -, -⟩ :=
    approve_pending_transition
      { userId := "u1", serviceName := "S", status := "pending",
        statusHistory := [], completedAt := false }
      "staff" "" rfl
  exact ⟨e, n, he, hn, hok⟩

/-- C5 counterexample: the claim asserts that every `record` call with
persistence enabled invokes the console sink exactly once, but the console
mirror is guarded by `enableConsole`; with console output disabled (and
persistence enabled, buffer empty, capacity 100) the sink runs zero times,
while the entry is still appended and no flush is triggered. -/
theorem log_console_disabled_counterexample :
    (Logger.log
      { enableConsole := false, enableFirestore := true, hasDb := true,
        maxBufferSize := 100, logBuffer := [], consoleCount := 0, flushCalls := 0 }
      "t" "error" "db down" .null "l1" "s1").consoleCount = 0 ∧
    (0 : Nat) ≠ 0 + 1 ∧
    (Logger.log
      { enableConsole := false, enableFirestore := true, hasDb := true,
        maxBufferSize := 100, logBuffer := [], consoleCount := 0, flushCalls := 0 }
      "t" "error" "db down" .null "l1" "s1").logBuffer.length = 1 ∧
    (Logger.log
      { enableConsole := false, enableFirestore := true, hasDb := true,
        maxBufferSize := 100, logBuffer := [], consoleCount := 0, flushCalls := 0 }
      "t" "error" "db down" .null "l1" "s1").flushCalls = 0 := by
  refine ⟨rfl, by decide, rfl, rfl⟩

/-- C5 (amended): for every `record` call with persistence enabled, if the
buffer holds fewer than `maxBufferSize − 1` entries beforehand then exactly
one entry (the constructed log entry) is appended, the console sink runs
exactly once when console output is enabled and not at all otherwise, and
no flush is triggered; if appending makes the buffer length reach (or
exceed) the capacity, the same append and console behaviour occur and
exactly one immediate flush is triggered. -/
theorem log_record_spec (s : LoggerState) (ts level message : String) (data : JsValue)
    (lid sid : String) (hP : s.enableFirestore = true) (hDb : s.hasDb = true) :
    (s.logBuffer.length + 1 < s.maxBufferSize →
      Logger.log s ts level message data lid sid =
        { s with
            logBuffer := s.logBuffer ++ [mkLogEntry ts level message data sid lid]
            consoleCount := s.consoleCount + (if s.enableConsole then 1 else 0) }) ∧
    (s.maxBufferSize ≤ s.logBuffer.length + 1 →
      Logger.log s ts level message data lid sid =
        { s with
            logBuffer := s.logBuffer ++ [mkLogEntry ts level message data sid lid]
            consoleCount := s.consoleCount + (if s.enableConsole then 1 else 0)
            flushCalls := s.flushCalls + 1 }) := by
  unfold Logger.log
  by_cases hc : s.enableConsole
  · constructor
    · intro hlt
      simp [hc, hP, hDb, Nat.not_le_of_lt hlt]
    · intro hge
      simp [hc, hP, hDb, hge]
  · constructor
    · intro hlt
      simp [hc, hP, hDb, Nat.not_le_of_lt hlt]
    · intro hge
      simp [hc, hP, hDb, hge]

/-- Closed witness for C5 (scenario A: persistence enabled, console
enabled, empty buffer — one entry appended, console sink once, no flush). -/
theorem log_record_spec_witness :
    Logger.log
      { enableConsole := true, enableFirestore := true, hasDb := true,
        maxBufferSize := 100, logBuffer := [], consoleCount := 0, flushCalls := 0 }
      "t" "error" "db down" (.obj [("error", .str "timeout")]) "l1" "s1" =
      { enableConsole := true, enableFirestore := true, hasDb := true,
        maxBufferSize := 100,
        logBuffer :=
          [mkLogEntry "t" "error" "db down" (.obj [("error", .str "timeout")]) "s1" "l1"],
        consoleCount := 0 + 1, flushCalls := 0 } := by
  have h :=
    (log_record_spec
      { enableConsole := true, enableFirestore := true, hasDb := true,
        maxBufferSize := 100, logBuffer := [], consoleCount := 0, flushCalls := 0 }
      "t" "error" "db down" (.obj [("error", .str "timeout")]) "l1" "s1" rfl rfl).1
    (by decide)
  simpa using h

/-- C6: the application validator lists every absent required field (in
particular `{serviceId := "s1"}` fails listing the other three); with all
required fields present it rejects an email failing the
`local@domain.tld` test and, independently of the email value, a phone
whose digit count after stripping non-digits is outside 10–15, each with
its own distinct error; with everything valid it passes.  (It is a pure
function: the model performs no store operation.) -/
theorem validateApplicationData_spec :
    (validateApplicationData
        { serviceId := "s1", applicantName := "", applicantEmail := "", applicantPhone := "" } =
      .error "Missing required fields: applicantName, applicantEmail, applicantPhone") ∧
    (∀ d : ApplicationData,
      missingApplicationFields d =
        (if d.serviceId = "" then ["serviceId"] else []) ++
        (if d.applicantName = "" then ["applicantName"] else []) ++
        (if d.applicantEmail = "" then ["applicantEmail"] else []) ++
        (if d.applicantPhone = "" then ["applicantPhone"] else [])) ∧
    (∀ d : ApplicationData, missingApplicationFields d ≠ [] →
      validateApplicationData d =
        .error ("Missing required fields: " ++
          String.intercalate ", " (missingApplicationFields d))) ∧
    (∀ d : ApplicationData, missingApplicationFields d = [] →
      emailOk d.applicantEmail = false →
      validateApplicationData d = .error "Invalid email format") ∧
    (∀ d : ApplicationData, missingApplicationFields d = [] →
      emailOk d.applicantEmail = true →
      ¬(10 ≤ (phoneDigits d.applicantPhone).length ∧
        (phoneDigits d.applicantPhone).length ≤ 15) →
      validateApplicationData d = .error "Invalid phone number format") ∧
    (∀ d : ApplicationData, missingApplicationFields d = [] →
      emailOk d.applicantEmail = true →
      10 ≤ (phoneDigits d.applicantPhone).length →
      (phoneDigits d.applicantPhone).length ≤ 15 →
      validateApplicationData d = .ok ()) := by
  refine ⟨by rfl, ?_, ?_, ?_, ?_, ?_⟩
  · intro d
    by_cases h1 : d.serviceId = "" <;> by_cases h2 : d.applicantName = "" <;>
      by_cases h3 : d.applicantEmail = "" <;> by_cases h4 : d.applicantPhone = "" <;>
      simp [missingApplicationFields, applicationFieldPairs, h1, h2, h3, h4]
  · intro d hm
    unfold validateApplicationData
    rw [if_pos (List.length_pos.mpr hm)]
  · intro d hm he
    unfold validateApplicationData
    rw [if_neg (by simp [hm]), if_pos (by simp [he])]
  · intro d hm he hp
    unfold validateApplicationData
    rw [if_neg (by simp [hm]), if_neg (by simp [he]),
      if_pos (by simp [phoneOk]; omega)]
  · intro d hm he h10 h15
    unfold validateApplicationData
    rw [if_neg (by simp [hm]), if_neg (by simp [he]),
      if_neg (by simp [phoneOk]; omega)]

/-- Closed witness for C6: a fully valid application passes. -/
theorem validateApplicationData_spec_witness :
    validateApplicationData
      { serviceId := "s1", applicantName := "Asha", applicantEmail := "asha@example.com",
        applicantPhone := "(123) 456-7890" } = .ok () := by
  exact validateApplicationData_spec.2.2.2.2.2
    { serviceId := "s1", applicantName := "Asha", applicantEmail := "asha@example.com",
      applicantPhone := "(123) 456-7890" }
    (by decide) (by decide) (by decide) (by decide)

/-- C7: the service validator fails listing every absent field among
name/description/category whenever at least one is absent; only with all
three present does it reject a category outside the fixed enum, and with a
valid category it passes. -/
theorem validateServiceData_spec :
    (∀ d : ServiceData,
      missingServiceFields d =
        (if d.name = "" then ["name"] else []) ++
        (if d.description = "" then ["description"] else []) ++
        (if d.category = "" then ["category"] else [])) ∧
    (∀ d : ServiceData, missingServiceFields d ≠ [] →
      validateServiceData d =
        .error ("Missing required fields: " ++
          String.intercalate ", " (missingServiceFields d))) ∧
    (∀ d : ServiceData, missingServiceFields d = [] →
      validCategories.contains d.category = false →
      validateServiceData d = .error "Invalid service category") ∧
    (∀ d : ServiceData, missingServiceFields d = [] →
      validCategories.contains d.category = true →
      validateServiceData d = .ok ()) := by
  refine ⟨?_, ?_, ?_, ?_⟩
  · intro d
    by_cases h1 : d.name = "" <;> by_cases h2 : d.description = "" <;>
      by_cases h3 : d.category = "" <;>
      simp [missingServiceFields, serviceFieldPairs, h1, h2, h3]
  · intro d hm
    unfold validateServiceData
    rw [if_pos (List.length_pos.mpr hm)]
  · intro d hm hc
    unfold validateServiceData
    rw [if_neg (by simp [hm]), if_pos (by rw [hc]; rfl)]
  · intro d hm hc
    unfold validateServiceData
    rw [if_neg (by simp [hm]), if_neg (by rw [hc]; simp)]

/-- Closed witness for C7: a missing name and category are both listed. -/
theorem validateServiceData_spec_witness :
    validateServiceData { name := "", description := "d", category := "" } =
      .error "Missing required fields: name, category" := by
  exact validateServiceData_spec.2.1 { name := "", description := "d", category := "" }
    (by decide)

/-- Helper: `dropWhile` skips a block that satisfies the predicate. -/
theorem dropWhile_append_all {p : Char → Bool} {l1 l2 : List Char}
    (h : ∀ c ∈ l1, p c = true) : (l1 ++ l2).dropWhile p = l2.dropWhile p := by
  induction l1 with
  | nil => rfl
  | cons c cs ih =>
    simp only [List.cons_append, List.dropWhile_cons, h c (List.mem_cons_self c cs), if_true]
    exact ih fun x hx => h x (List.mem_cons_of_mem c hx)

/-- Helper: `takeWhile` keeps exactly a satisfying block followed by a
non-satisfying head. -/
theorem takeWhile_append_all {p : Char → Bool} {l1 l2 : List Char}
    (h1 : ∀ c ∈ l1, p c = true) (h2 : ∀ c, l2.head? = some c → p c = false) :
    (l1 ++ l2).takeWhile p = l1 := by
  induction l1 with
  | nil =>
    cases l2 with
    | nil => rfl
    | cons c cs => simp [List.takeWhile_cons, h2 c rfl]
  | cons c cs ih =>
    simp only [List.cons_append, List.takeWhile_cons, h1 c (List.mem_cons_self c cs), if_true]
    rw [ih fun x hx => h1 x (List.mem_cons_of_mem c hx)]

/-- Helper: unfolding of `parseProcessingTime` on a present string. -/
theorem parseProcessingTime_some (s : String) :
    parseProcessingTime (some s) =
      if s = "" then 7
      else if (firstDigitRun s).isEmpty then 7 else digitsVal (firstDigitRun s) := rfl

/-- C10: the day-count behind `estimatedCompletionDate` is the integer
value of the first maximal digit run of the `processingTime` string, and 7
when the string is absent, empty, or digit-free; the estimated completion
date is the submission time advanced by exactly that many days. -/
theorem parseProcessingTime_spec :
    parseProcessingTime none = 7 ∧
    parseProcessingTime (some "") = 7 ∧
    (∀ s : String, (∀ c ∈ s.toList, c.isDigit = false) →
      parseProcessingTime (some s) = 7) ∧
    (∀ (s : String) (pre run post : List Char),
      s.toList = pre ++ run ++ post →
      (∀ c ∈ pre, c.isDigit = false) →
      run ≠ [] →
      (∀ c ∈ run, c.isDigit = true) →
      (∀ c, post.head? = some c → c.isDigit = false) →
      parseProcessingTime (some s) = digitsVal run) ∧
    (∀ (nowDays : Nat) (pt : Option String),
      calculateEstimatedDate nowDays pt = nowDays + parseProcessingTime pt) := by
  refine ⟨rfl, rfl, ?_, ?_, fun _ _ => rfl⟩
  · intro s hnd
    rw [parseProcessingTime_some]
    by_cases hs : s = ""
    · rw [if_pos hs]
    · rw [if_neg hs]
      have hd : (s.toList.dropWhile fun c => !c.isDigit) = [] := by
        have := @dropWhile_append_all (fun c => !c.isDigit) s.toList []
          (fun c hc => by simp [hnd c hc])
        simpa using this
      have hfdr : firstDigitRun s = [] := by
        unfold firstDigitRun
        rw [hd]
        rfl
      simp [hfdr]
  · intro s pre run post heq hpre hrun hdig hpost
    have hs : s ≠ "" := by
      intro h0
      rw [h0] at heq
      have : pre ++ run ++ post = [] := heq.symm
      simp only [List.append_eq_nil] at this
      exact hrun this.1.2
    rw [parseProcessingTime_some, if_neg hs]
    have hfdr : firstDigitRun s = run := by
      unfold firstDigitRun
      rw [heq, List.append_assoc,
        dropWhile_append_all (fun c hc => by simp [hpre c hc])]
      cases run with
      | nil => exact absurd rfl hrun
      | cons r rs =>
        rw [List.cons_append, List.dropWhile_cons]
        rw [if_neg (by simp [hdig r (List.mem_cons_self r rs)])]
        rw [← List.cons_append, takeWhile_append_all hdig hpost]
    rw [hfdr, if_neg (by simp [hrun])]

/-- Closed witness for C10: `"7-10 days"` parses to 7 days. -/
theorem parseProcessingTime_spec_witness :
    parseProcessingTime (some "7-10 days") = digitsVal ['7'] ∧
    digitsVal ['7'] = 7 := by
  refine ⟨?_, rfl⟩
  exact parseProcessingTime_spec.2.2.2.1 "7-10 days" [] ['7'] "-10 days".toList
    (by decide) (by intro c hc; cases hc) (by decide) (by decide) (by decide)

/-- Helper: how `bumpCount` changes a lookup. -/
theorem bumpCount_lookupCount (k m : String) (acc : List (String × Nat)) :
    lookupCount k (bumpCount m acc) = lookupCount k acc + (if m = k then 1 else 0) := by
  induction acc with
  | nil =>
    by_cases h : m = k <;> simp [bumpCount, lookupCount, h]
  | cons hd tl ih =>
    obtain ⟨k', c⟩ := hd
    by_cases h1 : k' = m
    · subst h1
      by_cases h2 : k' = k <;> simp [bumpCount, lookupCount, h2]
    · by_cases h2 : k' = k
      · subst h2
        have hmk : ¬(m = k') := fun hh => h1 hh.symm
        simp [bumpCount, lookupCount, h1, hmk]
      · simp [bumpCount, lookupCount, h1, h2, ih]

/-- Helper: the lookup of `"ERROR"`-message counts over the statistics fold
counts the matching entries. -/
theorem errorCounts_fold_lookupCount (k : String) (logs : List LogEntry) :
    ∀ acc : List (String × Nat),
      lookupCount k
        (logs.foldl (fun acc l => if l.level = "ERROR" then bumpCount l.message acc else acc)
          acc) =
      lookupCount k acc +
        logs.countP (fun l => l.level == "ERROR" && l.message == k) := by
  induction logs with
  | nil => intro acc; simp
  | cons l ls ih =>
    intro acc
    rw [List.foldl_cons, ih, List.countP_cons]
    by_cases hl : l.level = "ERROR"
    · by_cases hm : l.message = k
      · simp [hl, hm, bumpCount_lookupCount]
        omega
      · simp [hl, hm, bumpCount_lookupCount]
    · simp [hl]

theorem errorCounts_lookupCount (k : String) (logs : List LogEntry) :
    lookupCount k (errorCounts logs) =
      logs.countP (fun l => l.level == "ERROR" && l.message == k) := by
  have h := errorCounts_fold_lookupCount k logs []
  simpa [errorCounts, lookupCount] using h

/-- Helper: the level-count lookup over the statistics fold counts the
entries of that level. -/
theorem byLevelCounts_fold_lookupCount (k : String) (logs : List LogEntry) :
    ∀ acc : List (String × Nat),
      lookupCount k (logs.foldl (fun acc l => bumpCount l.level acc) acc) =
      lookupCount k acc + logs.countP (fun l => l.level == k) := by
  induction logs with
  | nil => intro acc; simp
  | cons l ls ih =>
    intro acc
    rw [List.foldl_cons, ih, List.countP_cons]
    by_cases hl : l.level = k
    · simp [hl, bumpCount_lookupCount]
      omega
    · simp [hl, bumpCount_lookupCount]

theorem byLevelCounts_lookupCount (k : String) (logs : List LogEntry) :
    lookupCount k (byLevelCounts logs) = logs.countP (fun l => l.level == k) := by
  have h := byLevelCounts_fold_lookupCount k logs []
  simpa [byLevelCounts, lookupCount] using h

/-- Helper: `bumpCount` appends a new key at the end and otherwise keeps
the key list. -/
theorem bumpCount_keys (m : String) (acc : List (String × Nat)) :
    (bumpCount m acc).map Prod.fst =
      if m ∈ acc.map Prod.fst then acc.map Prod.fst else acc.map Prod.fst ++ [m] := by
  induction acc with
  | nil => simp [bumpCount]
  | cons hd tl ih =>
    obtain ⟨k', c⟩ := hd
    by_cases h1 : k' = m
    · subst h1
      simp [bumpCount]
    · have h1m : ¬(m = k') := fun hh => h1 hh.symm
      by_cases h2 : m ∈ tl.map Prod.fst <;> simp [bumpCount, h1, h1m, h2, ih]

/-- Helper: the keys of the error-message counts are exactly the distinct
ERROR messages in first-seen order. -/
theorem errorCounts_keys_fold (logs : List LogEntry) :
    ∀ acc : List (String × Nat),
      (logs.foldl (fun acc l => if l.level = "ERROR" then bumpCount l.message acc else acc)
          acc).map Prod.fst =
      logs.foldl
        (fun ks l =>
          if l.level = "ERROR" then (if l.message ∈ ks then ks else ks ++ [l.message]) else ks)
        (acc.map Prod.fst) := by
  induction logs with
  | nil => intro acc; rfl
  | cons l ls ih =>
    intro acc
    rw [List.foldl_cons, List.foldl_cons, ih]
    by_cases hl : l.level = "ERROR"
    · rw [if_pos hl, if_pos hl, bumpCount_keys]
    · rw [if_neg hl, if_neg hl]

theorem errorCounts_keys (logs : List LogEntry) :
    (errorCounts logs).map Prod.fst = firstSeenErrorMessages logs := by
  have h := errorCounts_keys_fold logs []
  simpa [errorCounts, firstSeenErrorMessages] using h

/-- Helper: `bumpCount` preserves distinctness of the keys. -/
theorem bumpCount_keys_nodup (m : String) (acc : List (String × Nat))
    (h : (acc.map Prod.fst).Nodup) : ((bumpCount m acc).map Prod.fst).Nodup := by
  rw [bumpCount_keys]
  by_cases hm : m ∈ acc.map Prod.fst
  · rwa [if_pos hm]
  · rw [if_neg hm]
    refine List.Nodup.append h (List.nodup_singleton m) ?_
    intro a ha hb
    rw [List.mem_singleton] at hb
    subst hb
    exact hm ha

/-- Helper: the error-message counts have distinct keys. -/
theorem errorCounts_keys_nodup (logs : List LogEntry) :
    ((errorCounts logs).map Prod.fst).Nodup := by
  have main :
      ∀ (ls : List LogEntry) (acc : List (String × Nat)), (acc.map Prod.fst).Nodup →
        ((ls.foldl
            (fun acc l => if l.level = "ERROR" then bumpCount l.message acc else acc)
            acc).map Prod.fst).Nodup := by
    intro ls
    induction ls with
    | nil => intro acc h; simpa using h
    | cons l ls ih =>
      intro acc h
      rw [List.foldl_cons]
      by_cases hl : l.level = "ERROR"
      · rw [if_pos hl]
        exact ih _ (bumpCount_keys_nodup _ _ h)
      · rw [if_neg hl]
        exact ih _ h
  simpa [errorCounts] using main logs [] (by simp)

/-- Helper: with distinct keys, membership determines the lookup. -/
theorem lookupCount_of_mem {l : List (String × Nat)} {k : String} {c : Nat}
    (hnd : (l.map Prod.fst).Nodup) (hm : (k, c) ∈ l) : lookupCount k l = c := by
  induction l with
  | nil => cases hm
  | cons hd tl ih =>
    obtain ⟨k', c'⟩ := hd
    rcases List.mem_cons.mp hm with heq | htl
    · obtain ⟨h1, h2⟩ := Prod.mk.injEq .. ▸ heq
      simp only [lookupCount]
      rw [if_pos (by rw [h1])]
      exact h2.symm
    · have hk : k' ≠ k := by
        intro hh
        subst hh
        have : k' ∈ tl.map Prod.fst := List.mem_map.mpr ⟨(k', c), htl, rfl⟩
        exact (List.nodup_cons.mp (by simpa using hnd)).1 this
      simp only [lookupCount]
      rw [if_neg hk]
      exact ih (List.nodup_cons.mp (by simpa using hnd)).2 htl

/-- Helper: inserting into the sorted-by-count list is a permutation. -/
theorem insertCountDesc_perm (x : String × Nat) (l : List (String × Nat)) :
    List.Perm (insertCountDesc x l) (x :: l) := by
  induction l with
  | nil => exact List.Perm.refl _
  | cons q qs ih =>
    by_cases h : q.2 ≤ x.2
    · simp only [insertCountDesc]
      rw [if_pos h]
    · simp only [insertCountDesc]
      rw [if_neg h]
      exact (ih.cons q).trans (List.Perm.swap x q qs)

/-- Helper: the stable sort is a permutation of its input. -/
theorem sortByCountDesc_perm (l : List (String × Nat)) :
    List.Perm (sortByCountDesc l) l := by
  induction l with
  | nil => exact List.Perm.refl _
  | cons x xs ih =>
    simp only [sortByCountDesc]
    exact (insertCountDesc_perm x (sortByCountDesc xs)).trans (ih.cons x)

/-- Helper: `insertCountDesc` preserves a pairwise relation, given that the
inserted element relates forward to every element of no larger count and
backward from every element of strictly larger count. -/
theorem pairwise_insertCountDesc {R : (String × Nat) → (String × Nat) → Prop}
    (x : String × Nat) :
    ∀ l : List (String × Nat),
      (∀ r ∈ l, r.2 ≤ x.2 → R x r) →
      (∀ q ∈ l, x.2 < q.2 → R q x) →
      l.Pairwise R →
      l.Pairwise (fun p q => q.2 ≤ p.2) →
      (insertCountDesc x l).Pairwise R := by
  intro l
  induction l with
  | nil =>
    intro _ _ _ _
    simp [insertCountDesc]
  | cons q qs ih =>
    intro hend hgt hR hsort
    by_cases h : q.2 ≤ x.2
    · simp only [insertCountDesc]
      rw [if_pos h]
      refine List.Pairwise.cons ?_ hR
      intro r hr
      rcases List.mem_cons.mp hr with rfl | hrq
      · exact hend r (List.mem_cons_self r qs) h
      · have hle : r.2 ≤ q.2 := (List.pairwise_cons.mp hsort).1 r hrq
        exact hend r (List.mem_cons_of_mem q hrq) (le_trans hle h)
    · simp only [insertCountDesc]
      rw [if_neg h]
      have hx2 : x.2 < q.2 := Nat.lt_of_not_le h
      refine List.Pairwise.cons ?_ ?_
      · intro r hr
        have hmem : r = x ∨ r ∈ qs := by
          simpa using (insertCountDesc_perm x qs).mem_iff.mp hr
        rcases hmem with rfl | hrq
        · exact hgt q (List.mem_cons_self q qs) hx2
        · exact (List.pairwise_cons.mp hR).1 r hrq
      · exact ih (fun r hr hle => hend r (List.mem_cons_of_mem q hr) hle)
          (fun r hr hlt => hgt r (List.mem_cons_of_mem q hr) hlt)
          (List.pairwise_cons.mp hR).2
          (List.pairwise_cons.mp hsort).2

/-- Helper: the sort is sorted by count, descending (non-strict). -/
theorem sortByCountDesc_sorted (l : List (String × Nat)) :
    (sortByCountDesc l).Pairwise (fun p q => q.2 ≤ p.2) := by
  induction l with
  | nil => simp [sortByCountDesc]
  | cons x xs ih =>
    simp only [sortByCountDesc]
    exact pairwise_insertCountDesc x (sortByCountDesc xs)
      (fun r _ hle => hle) (fun q _ hlt => le_of_lt hlt) ih ih

/-- Helper: stability — in the sorted output, any pair is ordered by
strictly larger count, or by input order when the counts tie. -/
theorem sortByCountDesc_stable (l : List (String × Nat)) :
    (sortByCountDesc l).Pairwise
      (fun p q => q.2 < p.2 ∨ (p.2 = q.2 ∧ List.Sublist [p, q] l)) := by
  induction l with
  | nil => simp [sortByCountDesc]
  | cons x xs ih =>
    simp only [sortByCountDesc]
    refine pairwise_insertCountDesc x (sortByCountDesc xs) ?_ ?_ ?_
      (sortByCountDesc_sorted xs)
    · intro r hr hle
      rcases Nat.lt_or_ge r.2 x.2 with hlt | hge
      · exact Or.inl hlt
      · refine Or.inr ⟨le_antisymm hge hle, ?_⟩
        have hrxs : r ∈ xs := (sortByCountDesc_perm xs).mem_iff.mp hr
        exact List.Sublist.cons₂ x (List.singleton_sublist.mpr hrxs)
    · intro q _ hlt
      exact Or.inl hlt
    · refine List.Pairwise.imp ?_ ih
      intro p q hpq
      rcases hpq with h1 | ⟨h2, h3⟩
      · exact Or.inl h1
      · exact Or.inr ⟨h2, h3.cons x⟩

/-- C8: over the fetched entries, `topErrors` is the list of at most 10
most frequent ERROR messages in descending frequency with ties in
first-seen order (each listed count being the true frequency), the
concrete scenario with three `"X"` errors and one `"Y"` error yields
`[("X", 3), ("Y", 1)]`, and the error rate is the number of ERROR entries
divided by the total.  Selection is pinned by the last two conjuncts:
with at most ten distinct ERROR messages all of them are listed, and no
omitted message has a frequency exceeding that of any listed one. -/
theorem getLogStatistics_spec :
    ((getLogStatistics
        [{ timestamp := "t1", level := "ERROR", message := "X", data := .null,
           sessionId := "s", id := "i1" },
         { timestamp := "t2", level := "ERROR", message := "X", data := .null,
           sessionId := "s", id := "i2" },
         { timestamp := "t3", level := "ERROR", message := "X", data := .null,
           sessionId := "s", id := "i3" },
         { timestamp := "t4", level := "ERROR", message := "Y", data := .null,
           sessionId := "s", id := "i4" }]).topErrors = [("X", 3), ("Y", 1)]) ∧
    (∀ logs : List LogEntry,
      (getLogStatistics logs).errorRate =
        ((logs.countP fun l => l.level == "ERROR") : ℚ) / (logs.length : ℚ)) ∧
    (∀ logs : List LogEntry, (getLogStatistics logs).topErrors.length ≤ 10) ∧
    (∀ logs : List LogEntry,
      (getLogStatistics logs).topErrors.Pairwise fun p q =>
        q.2 < p.2 ∨
          (p.2 = q.2 ∧ List.Sublist [p.1, q.1] (firstSeenErrorMessages logs))) ∧
    (∀ logs : List LogEntry, ∀ p ∈ (getLogStatistics logs).topErrors,
      p.2 = logs.countP fun l => l.level == "ERROR" && l.message == p.1) ∧
    (∀ logs : List LogEntry, (firstSeenErrorMessages logs).length ≤ 10 →
      List.Perm ((getLogStatistics logs).topErrors.map Prod.fst)
        (firstSeenErrorMessages logs)) ∧
    (∀ logs : List LogEntry, ∀ m ∈ firstSeenErrorMessages logs,
      m ∉ (getLogStatistics logs).topErrors.map Prod.fst →
      ∀ p ∈ (getLogStatistics logs).topErrors,
        logs.countP (fun l => l.level == "ERROR" && l.message == m) ≤ p.2) := by
  refine ⟨by decide, ?_, ?_, ?_, ?_, ?_, ?_⟩
  · intro logs
    by_cases h : 0 < logs.length
    · simp [getLogStatistics, h, byLevelCounts_lookupCount]
    · have hnil : logs = [] := List.length_eq_zero.mp (Nat.eq_zero_of_not_pos h)
      subst hnil
      simp [getLogStatistics]
  · intro logs
    simp [getLogStatistics, List.length_take]
  · intro logs
    have h1 := sortByCountDesc_stable (errorCounts logs)
    have h2 := List.Pairwise.sublist (List.take_sublist 10 _) h1
    simp only [getLogStatistics]
    refine List.Pairwise.imp ?_ h2
    intro p q hpq
    rcases hpq with hlt | ⟨hc, hsub⟩
    · exact Or.inl hlt
    · refine Or.inr ⟨hc, ?_⟩
      have := hsub.map Prod.fst
      rwa [errorCounts_keys] at this
  · intro logs p hp
    simp only [getLogStatistics] at hp
    have hp1 : p ∈ sortByCountDesc (errorCounts logs) := List.mem_of_mem_take hp
    have hp2 : p ∈ errorCounts logs := (sortByCountDesc_perm _).mem_iff.mp hp1
    rw [← errorCounts_lookupCount]
    exact (lookupCount_of_mem (errorCounts_keys_nodup logs) hp2).symm
  · intro logs hle
    have hkeys := errorCounts_keys logs
    have hlen : (errorCounts logs).length ≤ 10 := by
      have hx : (errorCounts logs).length = (firstSeenErrorMessages logs).length := by
        rw [← hkeys, List.length_map]
      omega
    have hsortlen : (sortByCountDesc (errorCounts logs)).length ≤ 10 := by
      rw [(sortByCountDesc_perm (errorCounts logs)).length_eq]
      exact hlen
    simp only [getLogStatistics]
    rw [List.take_of_length_le hsortlen, ← hkeys]
    exact (sortByCountDesc_perm (errorCounts logs)).map Prod.fst
  · intro logs m hmfs hmnot p hp
    simp only [getLogStatistics] at hmnot hp
    have hmkeys : m ∈ (errorCounts logs).map Prod.fst := by
      rw [errorCounts_keys]
      exact hmfs
    obtain ⟨q, hqmem, hqfst⟩ := List.mem_map.mp hmkeys
    have hcount : logs.countP (fun l => l.level == "ERROR" && l.message == m) = q.2 := by
      rw [← hqfst, ← errorCounts_lookupCount]
      exact lookupCount_of_mem (errorCounts_keys_nodup logs) hqmem
    have hqsort : q ∈ sortByCountDesc (errorCounts logs) :=
      (sortByCountDesc_perm _).mem_iff.mpr hqmem
    have hsplit := List.take_append_drop 10 (sortByCountDesc (errorCounts logs))
    have hqtd : q ∈ (sortByCountDesc (errorCounts logs)).take 10 ∨
        q ∈ (sortByCountDesc (errorCounts logs)).drop 10 := by
      rw [← List.mem_append, hsplit]
      exact hqsort
    rcases hqtd with hqt | hqd
    · exact absurd (List.mem_map.mpr ⟨q, hqt, hqfst⟩) hmnot
    · have hsorted := sortByCountDesc_sorted (errorCounts logs)
      rw [← hsplit] at hsorted
      have hle := (List.pairwise_append.mp hsorted).2.2 p hp q hqd
      rw [hcount]
      exact hle

/-- Closed witness for C8: the listed count 3 of message `"X"` in the
scenario is its true ERROR frequency. -/
theorem getLogStatistics_spec_witness :
    (("X", 3) : String × Nat).2 =
      ([{ timestamp := "t1", level := "ERROR", message := "X", data := .null,
          sessionId := "s", id := "i1" },
        { timestamp := "t2", level := "ERROR", message := "X", data := .null,
          sessionId := "s", id := "i2" },
        { timestamp := "t3", level := "ERROR", message := "X", data := .null,
          sessionId := "s", id := "i3" },
        { timestamp := "t4", level := "ERROR", message := "Y", data := .null,
          sessionId := "s", id := "i4" }] : List LogEntry).countP
        (fun l => l.level == "ERROR" && l.message == (("X", 3) : String × Nat).1) := by
  exact getLogStatistics_spec.2.2.2.2.1 _ ("X", 3) (by decide)

/-- Helper: a map that fixes every member is the identity. -/
theorem map_id_of_mem {l : List Char} {f : Char → Char} (h : ∀ c ∈ l, f c = c) :
    l.map f = l := by
  induction l with
  | nil => rfl
  | cons c cs ih =>
    rw [List.map_cons, h c (List.mem_cons_self c cs),
      ih fun x hx => h x (List.mem_cons_of_mem c hx)]

/-- Helper: every character of a decimal key is one of the ten digits. -/
theorem natKeyAux_chars (n : Nat) :
    ∀ c ∈ natKeyAux n, c ∈ ['0', '1', '2', '3', '4', '5', '6', '7', '8', '9'] := by
  induction n using Nat.strong_induction_on with
  | _ n ih =>
    rw [natKeyAux]
    by_cases h : n < 10
    · rw [dif_pos h]
      intro c hc
      rw [List.mem_singleton] at hc
      subst hc
      interval_cases n <;> decide
    · rw [dif_neg h]
      intro c hc
      rcases List.mem_append.mp hc with h1 | h2
      · exact ih (n / 10) (Nat.div_lt_self (by omega) (by omega)) c h1
      · rw [List.mem_singleton] at h2
        subst h2
        have hm : n % 10 < 10 := Nat.mod_lt n (by omega)
        interval_cases hmod : n % 10 <;> simp_all [digitChar]

/-- Helper: lower-casing fixes digit characters. -/
theorem toLower_of_digit {c : Char}
    (h : c ∈ ['0', '1', '2', '3', '4', '5', '6', '7', '8', '9']) : c.toLower = c := by
  fin_cases h <;> decide

/-- Helper: `seqStarts` implies member-wise containment. -/
theorem seqStarts_subset {pat l : List Char} (h : seqStarts pat l = true) :
    ∀ c ∈ pat, c ∈ l := by
  induction pat generalizing l with
  | nil => intro c hc; cases hc
  | cons p ps ih =>
    cases l with
    | nil => cases h
    | cons x xs =>
      simp only [seqStarts, Bool.and_eq_true, beq_iff_eq] at h
      intro c hc
      rcases List.mem_cons.mp hc with rfl | hcp
      · rw [h.1]
        exact List.mem_cons_self x xs
      · exact List.mem_cons_of_mem x (ih h.2 c hcp)

/-- Helper: `seqContains` implies member-wise containment. -/
theorem seqContains_subset {pat l : List Char} (h : seqContains pat l = true) :
    ∀ c ∈ pat, c ∈ l := by
  induction l with
  | nil =>
    intro c hc
    rw [seqContains, List.isEmpty_iff] at h
    subst h
    cases hc
  | cons x xs ih =>
    rw [seqContains, Bool.or_eq_true] at h
    intro c hc
    rcases h with h1 | h2
    · exact seqStarts_subset h1 c hc
    · exact List.mem_cons_of_mem x (ih h2 c hc)

/-- Helper: decimal index keys never match the denylist. -/
theorem containsSensitive_natKey (n : Nat) : containsSensitive (natKey n) = false := by
  have hlow : (lowerString (natKey n)).toList = natKeyAux n := by
    show ((String.mk (natKeyAux n)).toList.map Char.toLower) = natKeyAux n
    exact map_id_of_mem fun c hc => toLower_of_digit (natKeyAux_chars n c hc)
  rw [containsSensitive, List.any_eq_false]
  intro f hf
  rw [Bool.not_eq_true]
  by_contra hcontra
  rw [Bool.not_eq_false, hlow] at hcontra
  have hw : ∃ c ∈ f.toList, c ∉ ['0', '1', '2', '3', '4', '5', '6', '7', '8', '9'] := by
    fin_cases hf <;> decide
  obtain ⟨c, hcf, hcd⟩ := hw
  exact hcd (natKeyAux_chars n c (seqContains_subset hcontra c hcf))

/-- Helper: sanitizing an array of deny-free elements elementwise. -/
theorem sanitizeArr_id {items : List JsValue} (h : ∀ v ∈ items, sanitizeObject v = v) :
    sanitizeArr items = items := by
  induction items with
  | nil => rfl
  | cons v vs ih =>
    rw [sanitizeArr, h v (List.mem_cons_self v vs),
      ih fun x hx => h x (List.mem_cons_of_mem v hx)]

/-- Helper: sanitizing deny-free fields is the identity. -/
theorem sanitizeFields_id {fields : List (String × JsValue)}
    (hk : ∀ kv ∈ fields, containsSensitive kv.1 = false)
    (hv : ∀ kv ∈ fields, sanitizeObject kv.2 = kv.2) : sanitizeFields fields = fields := by
  induction fields with
  | nil => rfl
  | cons kv rest ih
  =>
    obtain ⟨k, v⟩ := kv
    rw [sanitizeFields,
      if_neg (by rw [hk (k, v) (List.mem_cons_self (k, v) rest)]; exact Bool.false_ne_true)]
    rw [hv (k, v) (List.mem_cons_self (k, v) rest),
      ih (fun x hx => hk x (List.mem_cons_of_mem (k, v) hx))
        (fun x hx => hv x (List.mem_cons_of_mem (k, v) hx))]

/-- Helper: the sanitizer is the identity on deny-free values. -/
theorem sanitizeObject_denyFree {v : JsValue} (h : DenyFree v) : sanitizeObject v = v := by
  induction h with
  | null => rfl
  | bool b => rfl
  | num n => rfl
  | str s => rfl
  | arr items hmem ih =>
    rw [sanitizeObject, sanitizeArr_id fun v hv => ih v hv]
  | obj fields hk hv ih =>
    rw [sanitizeObject, sanitizeFields_id hk fun kv hkv => ih kv hkv]

/-- Helper: `sanitizeFields` as a map over the fields. -/
theorem sanitizeFields_eq_map (fields : List (String × JsValue)) :
    sanitizeFields fields =
      fields.map fun kv =>
        if containsSensitive kv.1 then (kv.1, JsValue.str "[REDACTED]")
        else (kv.1, sanitizeObject kv.2) := by
  induction fields with
  | nil => rfl
  | cons kv rest ih =>
    obtain ⟨k, v⟩ := kv
    rw [sanitizeFields, List.map_cons, ih]

/-- Helper: sanitizing an index-keyed spread copy sanitizes the values. -/
theorem sanitizeFields_natKey (ps : List (Nat × JsValue)) :
    sanitizeFields (ps.map fun p => (natKey p.1, p.2)) =
      ps.map fun p => (natKey p.1, sanitizeObject p.2) := by
  induction ps with
  | nil => rfl
  | cons p rest ih =>
    rw [List.map_cons, sanitizeFields,
      if_neg (by rw [containsSensitive_natKey]; exact Bool.false_ne_true),
      List.map_cons, ih]

/-- C9 counterexample: the empty array is free of denylisted keys, yet
`sanitizeData` does not return a deep-equal structure for it: the top-level
spread copy `{ ...data }` turns the array into a plain object, so the claim
fails as stated for every top-level array input. -/
theorem sanitizeData_array_counterexample :
    DenyFree (JsValue.arr []) ∧ sanitizeData (JsValue.arr []) ≠ JsValue.arr [] := by
  constructor
  · exact DenyFree.arr [] (by intro v hv; cases hv)
  · have h : sanitizeData (JsValue.arr []) = JsValue.obj [] := by
      rw [sanitizeData, if_neg (by decide), spreadCopy]
      rfl
    rw [h]
    exact fun hc => JsValue.noConfusion hc

/-- C9 (amended): `sanitizeData` returns scalars untouched; at every
mapping level every key whose lower-cased name contains a denylisted
substring has its value replaced by `"[REDACTED]"` while sibling keys and
their (recursively sanitized) values are kept in place; a deny-free value
sanitizes to a deep-equal structure; and — the amendment — a top-level
array input is turned into a plain mapping keyed by the decimal element
indices, with the elements themselves sanitized recursively.  (The model
is pure, so the original input is never mutated.) -/
theorem sanitizeData_spec :
    (∀ v : JsValue, isScalar v = true → sanitizeData v = v) ∧
    (∀ fields : List (String × JsValue),
      sanitizeObject (.obj fields) =
        .obj (fields.map fun kv =>
          if containsSensitive kv.1 then (kv.1, JsValue.str "[REDACTED]")
          else (kv.1, sanitizeObject kv.2))) ∧
    (∀ v : JsValue, DenyFree v → sanitizeObject v = v) ∧
    (∀ fields : List (String × JsValue), DenyFree (.obj fields) →
      sanitizeData (.obj fields) = .obj fields) ∧
    (∀ items : List JsValue,
      sanitizeData (.arr items) =
        .obj ((items.enum).map fun p => (natKey p.1, sanitizeObject p.2))) := by
  refine ⟨?_, ?_, fun v h => sanitizeObject_denyFree h, ?_, ?_⟩
  · intro v hv
    cases v <;> simp_all [sanitizeData, jsFalsy, isObjectTyped, isScalar]
  · intro fields
    rw [sanitizeObject, sanitizeFields_eq_map]
  · intro fields hdf
    have hstep : sanitizeData (.obj fields) = sanitizeObject (.obj fields) := by
      simp [sanitizeData, jsFalsy, isObjectTyped, spreadCopy]
    rw [hstep, sanitizeObject_denyFree hdf]
  · intro items
    have hstep : sanitizeData (.arr items) =
        sanitizeObject (.obj ((items.enum).map fun p => (natKey p.1, p.2))) := by
      simp [sanitizeData, jsFalsy, isObjectTyped, spreadCopy]
    rw [hstep, sanitizeObject, sanitizeFields_natKey]

/-- Closed witness for C9: a deny-free object sanitizes to itself. -/
theorem sanitizeData_spec_witness :
    sanitizeData (JsValue.obj [("name", JsValue.str "a")]) =
      JsValue.obj [("name", JsValue.str "a")] := by
  refine sanitizeData_spec.2.2.2.1 [("name", JsValue.str "a")] (DenyFree.obj _ ?_ ?_)
  · intro kv hkv
    rw [List.mem_singleton] at hkv
    subst hkv
    decide
  · intro kv hkv
    rw [List.mem_singleton] at hkv
    subst hkv
    exact DenyFree.str "a"

end GramPanchayat
